import Mathlib

/-!
Shallow embedding of the recall-loader-cli benchmark stats pipeline.

Scope of the embedding, translated from the Rust source:
  - src/stats/ops.rs        : Operation, OperationType, Throughput display
  - src/stats/aggregator.rs : Aggregator, AggregatedOperation and its derived
    statistics (avg_throughput, objects_per_sec, concurrency, avg_duration)
  - src/stats/collector.rs  : Collector (single-consumer queue, close semantics)
  - src/commands/downloader.rs : Downloader (bounded worker pool), as a
    small-step transition system
  - src/commands/runner.rs  : upload_test control flow and the
    loop_until_blob_found eventual-consistency poller

Modelling conventions: chrono DateTime values are Int nanosecond timestamps,
chrono Duration values are Int nanosecond counts; the i64 overflow check of
chrono num_nanoseconds is explicit and a Rust unwrap on its None result is
modelled as an Option none (the panic path).  Rust f64 arithmetic is modelled
by exact rational arithmetic plus an explicit FloatVal encoding of the
infinity and nan outcomes of division by zero; for every concrete input used
in the theorems below the f64 computation of the source is exact, so the
rational model agrees with the source there.
-/

namespace RecallLoader

/-- i64::MAX. -/
def i64Max : Int := 9223372036854775807

/-- i64::MIN. -/
def i64Min : Int := -9223372036854775808

/-- chrono Duration::MAX (i64::MAX milliseconds) in nanoseconds. -/
def durationMaxNs : Int := 9223372036854775807000000

/-- chrono Duration::MIN (i64::MIN milliseconds) in nanoseconds. -/
def durationMinNs : Int := -9223372036854775808000000

/-- chrono DateTime::MAX_UTC (262142-12-31T23:59:59.999999999Z) as a nanosecond
unix timestamp: 8210266876799 seconds plus 999999999 nanoseconds. -/
def maxUtcNs : Int := 8210266876799999999999

/-- chrono DateTime::MIN_UTC (-262143-01-01T00:00:00Z) as a nanosecond unix
timestamp: -8334601228800 seconds. -/
def minUtcNs : Int := -8334601228800000000000

/-- src/stats/ops.rs OperationType. -/
inductive OperationType where
  | Get
  | Put
  | List
  | Delete
deriving DecidableEq

/-- src/stats/ops.rs Operation.  The Rust field end is renamed endT because
end is a Lean keyword; timestamps are nanosecond integers. -/
structure Operation where
  id : String
  start : Int
  endT : Int
  op_type : OperationType
  size : Int
  file : String
  error : String
deriving DecidableEq

/-- Operation::duration = end.signed_duration_since(start). -/
def Operation.duration (op : Operation) : Int := op.endT - op.start

/-- src/stats/aggregator.rs AggregatedOperation.  threads is the HashSet of
worker ids, modelled as a Finset. -/
structure AggregatedOperation where
  start_time : Int
  end_time : Int
  min_duration : Int
  max_duration : Int
  errors : Int
  n : Int
  total_duration : Int
  total_bytes : Int
  threads : Finset String
deriving DecidableEq

/-- The entry Aggregator::insert seeds via or_insert: Default::default() with
the four sentinel fields overridden (DateTime::MAX_UTC, DateTime::MIN_UTC,
Duration::MAX, Duration::MIN). -/
def seedAggOp : AggregatedOperation :=
  { start_time := maxUtcNs
    end_time := minUtcNs
    min_duration := durationMaxNs
    max_duration := durationMinNs
    errors := 0
    n := 0
    total_duration := 0
    total_bytes := 0
    threads := ∅ }

/-- AggregatedOperation::insert: n is always incremented; a record with a
non-empty error only increments errors and returns early; a successful record
updates bytes, durations, the worker set and the span bounds. -/
def AggregatedOperation.insert (s : AggregatedOperation) (op : Operation) :
    AggregatedOperation :=
  if op.error ≠ "" then
    { s with n := s.n + 1, errors := s.errors + 1 }
  else
    { s with
      n := s.n + 1
      total_bytes := s.total_bytes + op.size
      total_duration := s.total_duration + op.duration
      threads := Insert.insert op.id s.threads
      start_time := min s.start_time op.start
      end_time := max s.end_time op.endT
      min_duration := min s.min_duration op.duration
      max_duration := max s.max_duration op.duration }

/-- AggregatedOperation::duration = end_time.signed_duration_since(start_time),
the wall-clock span over successful records. -/
def AggregatedOperation.duration (s : AggregatedOperation) : Int :=
  s.end_time - s.start_time

/-- chrono Duration::num_nanoseconds: some when the nanosecond count fits in
an i64, none on overflow. -/
def numNanoseconds (d : Int) : Option Int :=
  if i64Min ≤ d ∧ d ≤ i64Max then some d else none

/-- Outcome of a Rust f64 computation: a finite (exactly represented) value,
an infinity, or nan. -/
inductive FloatVal where
  | val (q : ℚ)
  | inf
  | negInf
  | nan
deriving DecidableEq

/-- AggregatedOperation::avg_throughput.  The source returns Throughput(0.0)
when total_bytes == 0, otherwise computes total_bytes * 1e9 / duration_ns in
f64; the unwrap of num_nanoseconds is the none (panic) case, and division of
a nonzero value by a zero span yields an f64 infinity. -/
def AggregatedOperation.avg_throughput (s : AggregatedOperation) :
    Option FloatVal :=
  if s.total_bytes = 0 then some (.val 0)
  else
    match numNanoseconds s.duration with
    | none => none
    | some d =>
        if d = 0 then some (if 0 < s.total_bytes then .inf else .negInf)
        else some (.val ((s.total_bytes : ℚ) * 1000000000 / (d : ℚ)))

/-- AggregatedOperation::objects_per_sec = n * 1e9 / duration_ns in f64, with
no guard: the unwrap of num_nanoseconds is the none (panic) case, and a zero
span yields an f64 infinity (or nan when n = 0). -/
def AggregatedOperation.objects_per_sec (s : AggregatedOperation) :
    Option FloatVal :=
  match numNanoseconds s.duration with
  | none => none
  | some d =>
      if d = 0 then
        some (if 0 < s.n then .inf else if s.n < 0 then .negInf else .nan)
      else some (.val ((s.n : ℚ) * 1000000000 / (d : ℚ)))

/-- AggregatedOperation::concurrency = threads.len(). -/
def AggregatedOperation.concurrency (s : AggregatedOperation) : Int :=
  (s.threads.card : Int)

/-- Rust f64::round: nearest integer, ties away from zero. -/
def roundHalfAway (q : ℚ) : Int :=
  if 0 ≤ q then ⌊q + 1 / 2⌋ else -⌊-q + 1 / 2⌋

/-- AggregatedOperation::avg_duration: avg_in_secs = total_ns / (n * 1e9),
result = Duration::milliseconds((avg_in_secs * 1000).round() as i64), returned
here in nanoseconds.  The unwrap of num_nanoseconds on total_duration is the
none case; when n = 0 the f64 division yields nan (rounded-and-cast to 0) for
a zero total and an infinity (cast saturating to the i64 bounds) otherwise. -/
def AggregatedOperation.avg_duration (s : AggregatedOperation) : Option Int :=
  match numNanoseconds s.total_duration with
  | none => none
  | some d =>
      if s.n = 0 then
        if d = 0 then some 0
        else if 0 < d then some (i64Max * 1000000)
        else some (i64Min * 1000000)
      else
        some (roundHalfAway ((d : ℚ) / ((s.n : ℚ) * 1000000000) * 1000)
          * 1000000)

/-- src/stats/aggregator.rs Aggregator: a map from operation type to its
aggregate, HashMap modelled as a function to Option. -/
@[ext]
structure Aggregator where
  operations : OperationType → Option AggregatedOperation

/-- Aggregator::new. -/
def Aggregator.new : Aggregator := ⟨fun _ => none⟩

/-- Aggregator::insert: entry(op_type).or_insert(seed).insert(operation). -/
def Aggregator.insert (a : Aggregator) (op : Operation) : Aggregator :=
  ⟨fun t =>
    if t = op.op_type then
      some ((match a.operations op.op_type with
             | some s => s
             | none => seedAggOp).insert op)
    else a.operations t⟩

/-- Inserting a list of records in order into a fresh Aggregator. -/
def aggregateAll (l : List Operation) : Aggregator :=
  l.foldl Aggregator.insert Aggregator.new

/-- The distinct-worker set recorded for one operation type (empty when the
type has no entry). -/
def threadsOf (a : Aggregator) (k : OperationType) : Finset String :=
  match a.operations k with
  | some s => s.threads
  | none => ∅

/-! ## Throughput display (src/stats/ops.rs) -/

/-- Round a rational to the nearest integer, ties to even: the rounding Rust
uses when formatting an f64 with a fixed precision. -/
def roundHalfEven (q : ℚ) : Int :=
  if q - ⌊q⌋ < 1 / 2 then ⌊q⌋
  else if 1 / 2 < q - ⌊q⌋ then ⌊q⌋ + 1
  else if ⌊q⌋ % 2 = 0 then ⌊q⌋ else ⌊q⌋ + 1

/-- Fixed-precision decimal rendering of a non-negative rational, as Rust
renders an f64 with a precision format specifier. -/
def fmtFixedNonneg (q : ℚ) (prec : Nat) : String :=
  let scaled := (roundHalfEven (q * (10 : ℚ) ^ prec)).toNat
  let ip := scaled / 10 ^ prec
  let fp := scaled % 10 ^ prec
  let fpStr := Nat.repr fp
  let pad := String.mk (List.replicate (prec - fpStr.length) (Char.ofNat 48))
  Nat.repr ip ++ "." ++ pad ++ fpStr

/-- Fixed-precision decimal rendering, with the sign handled as Rust does. -/
def fmtFixed (q : ℚ) (prec : Nat) : String :=
  if q < 0 then "-" ++ fmtFixedNonneg (-q) prec else fmtFixedNonneg q prec

/-- impl fmt::Display for Throughput: binary-prefix bands at 1<<10, 1<<20,
1<<30 and 1i64<<40, one decimal place below the GiB band and two from it. -/
def throughputDisplay (t : ℚ) : String :=
  if t < 1024 then fmtFixed t 1 ++ "B/s"
  else if t < 1048576 then fmtFixed (t / 1024) 1 ++ "KiB/s"
  else if t < 1073741824 then fmtFixed (t / 1048576) 1 ++ "MiB/s"
  else if t < 1099511627776 then fmtFixed (t / 1073741824) 2 ++ "GiB/s"
  else fmtFixed (t / 1099511627776) 2 ++ "TiB/s"

/-! ## Collector (src/stats/collector.rs)

The Collector owns an mpsc sender (Option), a queue of records already sent
but not yet drained by the single background consumer task, the list of
processed records and the Aggregator the consumer feeds. -/

/-- Collector state: senderOpen models Option<Sender> being Some. -/
structure Collector where
  senderOpen : Bool
  queue : List Operation
  ops : List Operation
  aggregator : Aggregator

/-- Collector::new. -/
def Collector.new : Collector :=
  { senderOpen := true, queue := [], ops := [], aggregator := Aggregator.new }

/-- Collector::collect: send on the channel while the sender exists, else
return SendError(op) immediately. -/
def Collector.collect (c : Collector) (op : Operation) :
    Except Operation Collector :=
  if c.senderOpen then .ok { c with queue := c.queue ++ [op] }
  else .error op

/-- The background consumer draining the remaining queue in arrival order,
pushing each record to ops and into the Aggregator. -/
def Collector.drain (c : Collector) : Collector :=
  { c with
    queue := []
    ops := c.ops ++ c.queue
    aggregator := c.queue.foldl Aggregator.insert c.aggregator }

/-- Collector::close: drop the sender (no further sends succeed), then await
the background task, which drains every queued record before exiting. -/
def Collector.close (c : Collector) : Collector :=
  Collector.drain { c with senderOpen := false }

/-! ## Downloader worker pool (src/commands/downloader.rs)

Downloader::new spawns exactly `concurrency` background tasks sharing one
receiver; each task is a sequential loop that dequeues one key, runs one
download to completion and only then loops.  This is embedded as a small-step
transition system: a worker is idle or busy with one key, submissions append
to the shared queue, and a step either submits, hands a queued key to an idle
worker, finishes a busy worker, or closes the pool. -/

inductive WorkerState where
  | idle
  | busy (key : String)
deriving DecidableEq

/-- Whether a worker currently has a download executing. -/
def WorkerState.isBusy : WorkerState → Bool
  | .idle => false
  | .busy _ => true

structure PoolState where
  queue : List String
  workers : List WorkerState
  closed : Bool
deriving DecidableEq

/-- Downloader::new with worker count c: empty channel, c idle workers. -/
def initPool (c : Nat) : PoolState :=
  { queue := [], workers := List.replicate c .idle, closed := false }

/-- One scheduler step of the pool. -/
inductive PoolStep : PoolState → PoolState → Prop where
  | submit (s : PoolState) (k : String) (h : s.closed = false) :
      PoolStep s { s with queue := s.queue ++ [k] }
  | dequeue (s : PoolState) (i : Nat) (k : String) (rest : List String)
      (hw : s.workers[i]? = some .idle) (hq : s.queue = k :: rest) :
      PoolStep s { s with queue := rest, workers := s.workers.set i (.busy k) }
  | finish (s : PoolState) (i : Nat) (k : String)
      (hw : s.workers[i]? = some (.busy k)) :
      PoolStep s { s with workers := s.workers.set i .idle }
  | close (s : PoolState) :
      PoolStep s { s with closed := true }

/-- States reachable from a start state by scheduler steps. -/
def PoolReachable : PoolState → PoolState → Prop :=
  Relation.ReflTransGen PoolStep

/-- Number of downloads executing concurrently. -/
def busyCount (s : PoolState) : Nat :=
  (s.workers.filter WorkerState.isBusy).length

/-! ## TestRunner::upload_test control flow (src/commands/runner.rs)

The network is abstracted by an outcome oracle per upload index; the function
returns the phase trace together with the run result, mirroring the source
control flow: all uploads are attempted, failed keys are excluded from
results, an empty results map aborts the run before any later phase, and the
consistency wait plus downloads run only when a download phase is configured,
deletes only when configured. -/

structure RunCfg where
  blob_count : Nat
  uploadOutcome : Nat → Option Nat
  downloadConfigured : Bool
  deleteConfigured : Bool

inductive RunError where
  | noObjectsUploaded
deriving DecidableEq

structure RunTrace where
  uploadsAttempted : List Nat
  waitedForConsistency : Bool
  downloadsAttempted : List String
  deletesAttempted : List String
deriving DecidableEq

/-- Test::get_key_with_prefix for index i. -/
def keyFor (i : Nat) : String := "foo/" ++ Nat.repr i

/-- TestRunner::upload_test. -/
def upload_test (cfg : RunCfg) :
    RunTrace × Except RunError (List (String × Nat)) :=
  let idxs := List.range cfg.blob_count
  let results := idxs.filterMap
    (fun i => (cfg.uploadOutcome i).map (fun t => (keyFor i, t)))
  if results.isEmpty then
    ({ uploadsAttempted := idxs
       waitedForConsistency := false
       downloadsAttempted := []
       deletesAttempted := [] },
     .error .noObjectsUploaded)
  else
    ({ uploadsAttempted := idxs
       waitedForConsistency := cfg.downloadConfigured
       downloadsAttempted :=
         if cfg.downloadConfigured then results.map Prod.fst else []
       deletesAttempted :=
         if cfg.deleteConfigured then results.map Prod.fst else [] },
     .ok results)

/-! ## Eventual-consistency poller (src/commands/runner.rs) -/

/-- recall BroadcastMode. -/
inductive BroadcastMode where
  | Async
  | Sync
  | Commit
deriving DecidableEq

/-- The retry budget chosen in TestRunner::upload_test: 10 for Commit (the
strongest acknowledgement mode), 100 for every other mode. -/
def wait_retries (m : BroadcastMode) : Nat :=
  match m with
  | .Commit => 10
  | _ => 100

/-- The fixed delay slept after each failed poll attempt, in seconds. -/
def retryDelaySecs : Nat := 2

/-- One uploaded key with the commit status of its transaction receipt. -/
structure TxRec where
  key : String
  committed : Bool
deriving DecidableEq

/-- The receipts whose status is not TxStatus::Committed. -/
def notCommittedTxs (txs : List TxRec) : List TxRec :=
  txs.filter (fun t => !t.committed)

/-- The keys loop_until_blob_found polls: the last uploaded key when every
receipt committed, else the first and the middle element of the
non-committed list. -/
def toTry (txs : List TxRec) : List TxRec :=
  let nc := notCommittedTxs txs
  if nc.isEmpty then [txs.getLastD ⟨"", false⟩]
  else [nc.headD ⟨"", false⟩, nc.getD (nc.length / 2) ⟨"", false⟩]

/-- The inner retry loop for one key: f tells whether a given attempt for the
key succeeds; attempts run while budget remains, stop at the first success
without spending budget, and each failure spends one unit.  Returns the
attempt outcomes in order and the remaining shared budget. -/
def tryKey (f : Nat → Bool) : Nat → Nat → List Bool × Nat
  | 0, _ => ([], 0)
  | r + 1, idx =>
      if f idx then ([true], r + 1)
      else
        let p := tryKey f r (idx + 1)
        (false :: p.1, p.2)

/-- The outer loop of loop_until_blob_found: the sampled keys in order, each
consuming from the one shared retry budget. -/
def runKeys (oracle : String → Nat → Bool) :
    List TxRec → Nat → List (String × List Bool)
  | [], _ => []
  | t :: ts, r =>
      let p := tryKey (oracle t.key) r 0
      (t.key, p.1) :: runKeys oracle ts p.2

/-- loop_until_blob_found: sample keys from the receipts, then poll them
against the shared retry budget. -/
def loop_until_blob_found (oracle : String → Nat → Bool) (txs : List TxRec)
    (retries : Nat) : List (String × List Bool) :=
  runKeys oracle (toTry txs) retries

/-- Total failed attempts in a poller trace; each spends one unit of the
shared budget and is followed by one 2-second sleep. -/
def countFailures (trace : List (String × List Bool)) : Nat :=
  (trace.map (fun p => (p.2.filter (fun b => !b)).length)).sum

/-- Modelled from the spec (claim wording, for comparison with toTry): select
first, middle and last key when the key set is larger than 10, else all
keys. -/
def specSampleClaim (keys : List String) : List String :=
  if 10 < keys.length then
    [keys.headD "", keys.getD (keys.length / 2) "", keys.getLastD ""]
  else keys

/-! ## Helper lemmas on rounding -/

theorem floor_one_half : ⌊(1 : ℚ) / 2⌋ = 0 := by
  rw [Int.floor_eq_iff]
  norm_num

theorem roundHalfAway_intCast (n : ℤ) : roundHalfAway (n : ℚ) = n := by
  unfold roundHalfAway
  split
  · rw [Int.floor_int_add, floor_one_half, add_zero]
  · have h : -(n : ℚ) = ((-n : ℤ) : ℚ) := by push_cast; ring
    rw [h, Int.floor_int_add, floor_one_half, add_zero, neg_neg]

theorem roundHalfEven_natCast (n : ℕ) : roundHalfEven (n : ℚ) = (n : ℤ) := by
  unfold roundHalfEven
  rw [Int.floor_natCast]
  rw [if_pos (by push_cast; norm_num)]

theorem fmtFixed_scaled (q : ℚ) (prec m : ℕ) (hq : 0 ≤ q)
    (h : q * (10 : ℚ) ^ prec = (m : ℚ)) :
    fmtFixed q prec =
      Nat.repr (m / 10 ^ prec) ++ "." ++
        String.mk (List.replicate (prec - (Nat.repr (m % 10 ^ prec)).length)
          (Char.ofNat 48)) ++
        Nat.repr (m % 10 ^ prec) := by
  simp only [fmtFixed, fmtFixedNonneg]
  rw [if_neg (not_lt.2 hq), h, roundHalfEven_natCast, Int.toNat_natCast]

/-! ## Theorems -/

/-- Concrete aggregate for the C1 counterexample: a fresh aggregate after one
successful 100ms Get record and one errored Get record. -/
def c1CexAgg : AggregatedOperation :=
  (seedAggOp.insert ⟨"w1", 0, 100000000, .Get, 10, "f", ""⟩).insert
    ⟨"w2", 0, 0, .Get, 0, "g", "boom"⟩

/-- C2: inserting a record with a non-empty error increases error_count by
exactly 1 and leaves total_bytes, min_duration, max_duration, total_duration,
the distinct-worker set and the span bounds unchanged. -/
theorem c2_error_frame (s : AggregatedOperation) (op : Operation)
    (h : op.error ≠ "") :
    (s.insert op).errors = s.errors + 1 ∧
    (s.insert op).total_bytes = s.total_bytes ∧
    (s.insert op).min_duration = s.min_duration ∧
    (s.insert op).max_duration = s.max_duration ∧
    (s.insert op).total_duration = s.total_duration ∧
    (s.insert op).threads = s.threads ∧
    (s.insert op).start_time = s.start_time ∧
    (s.insert op).end_time = s.end_time := by
  simp [AggregatedOperation.insert, h]

/-- Witness for c2_error_frame at a concrete errored Put record. -/
theorem c2_error_frame_witness :
    (seedAggOp.insert ⟨"w", 0, 5, .Put, 9, "k", "err"⟩).errors =
      seedAggOp.errors + 1 :=
  (c2_error_frame seedAggOp ⟨"w", 0, 5, .Put, 9, "k", "err"⟩ (by decide)).1

/-- C3 (code bug): on the sentinel-seeded aggregate with count = 0 — the
state Aggregator::insert creates via or_insert — objects_per_sec panics: the
span is MIN_UTC minus MAX_UTC, whose nanosecond count overflows an i64, so
num_nanoseconds returns None and the unwrap panics (modelled as none).  The
other two statistics do return a defined zero there. -/
theorem c3_objects_per_sec_panics :
    seedAggOp.n = 0 ∧
    seedAggOp.objects_per_sec = none ∧
    seedAggOp.avg_throughput = some (.val 0) ∧
    seedAggOp.avg_duration = some 0 := by decide

/-- C7: after close() has returned, collect fails fast with the send error,
and close has drained the queue and applied every record in order. -/
theorem c7_collect_after_close (c : Collector) (op : Operation) :
    c.close.senderOpen = false ∧
    c.close.collect op = .error op ∧
    c.close.queue = [] ∧
    c.close.ops = c.ops ++ c.queue ∧
    c.close.aggregator = c.queue.foldl Aggregator.insert c.aggregator := by
  simp [Collector.close, Collector.drain, Collector.collect]

/-- C1 counterexample: a fresh aggregate receiving one successful Get record
of 100ms and one errored record has count - error_count = 1 > 0 but reports
avg_duration 50ms, strictly below min_duration 100ms: avg_duration divides by
the error-inclusive count. -/
theorem c1_counterexample :
    0 < c1CexAgg.n - c1CexAgg.errors ∧
    c1CexAgg.avg_duration = some 50000000 ∧
    ¬ c1CexAgg.min_duration ≤ 50000000 := by
  have ht : c1CexAgg.total_duration = 100000000 := by decide
  have hn : c1CexAgg.n = 2 := by decide
  have hnum : numNanoseconds 100000000 = some 100000000 := by decide
  refine ⟨by decide, ?_, by decide⟩
  simp only [AggregatedOperation.avg_duration, ht, hn, hnum]
  rw [if_neg (by decide)]
  have harg : ((100000000 : ℤ) : ℚ) / (((2 : ℤ) : ℚ) * 1000000000) * 1000 =
      ((50 : ℤ) : ℚ) := by push_cast; norm_num
  rw [harg, roundHalfAway_intCast]
  decide

/-- C4 counterexample: with 3 uploaded keys (below the claimed threshold of
10) whose receipts are all committed, the claim samples all keys, but
loop_until_blob_found polls only the last uploaded key. -/
theorem c4_sampling_counterexample :
    (toTry [⟨"a", true⟩, ⟨"b", true⟩, ⟨"c", true⟩]).map TxRec.key = ["c"] ∧
    specSampleClaim ["a", "b", "c"] = ["a", "b", "c"] ∧
    (toTry [⟨"a", true⟩, ⟨"b", true⟩, ⟨"c", true⟩]).map TxRec.key ≠
      specSampleClaim ["a", "b", "c"] := by decide

/-- C10: throughput formatting selects B/s, KiB/s, MiB/s, GiB/s, TiB/s at the
binary thresholds 2^10, 2^20, 2^30, 2^40, with one decimal place below the
GiB band and two from it; Throughput(1536) renders as 1.5KiB/s and
Throughput(500) as 500.0B/s. -/
theorem c10_throughput_format (t : ℚ) (h : 0 ≤ t) :
    (t < 1024 → throughputDisplay t = fmtFixed t 1 ++ "B/s") ∧
    (1024 ≤ t → t < 1048576 →
      throughputDisplay t = fmtFixed (t / 1024) 1 ++ "KiB/s") ∧
    (1048576 ≤ t → t < 1073741824 →
      throughputDisplay t = fmtFixed (t / 1048576) 1 ++ "MiB/s") ∧
    (1073741824 ≤ t → t < 1099511627776 →
      throughputDisplay t = fmtFixed (t / 1073741824) 2 ++ "GiB/s") ∧
    (1099511627776 ≤ t →
      throughputDisplay t = fmtFixed (t / 1099511627776) 2 ++ "TiB/s") ∧
    (throughputDisplay 1536 = "1.5KiB/s" ∧
      throughputDisplay 500 = "500.0B/s") := by
  have hA : throughputDisplay 1536 = "1.5KiB/s" := by
    simp only [throughputDisplay]
    rw [if_neg (by norm_num), if_pos (by norm_num),
      fmtFixed_scaled (1536 / 1024) 1 15 (by norm_num) (by norm_num)]
    decide
  have hB : throughputDisplay 500 = "500.0B/s" := by
    simp only [throughputDisplay]
    rw [if_pos (by norm_num),
      fmtFixed_scaled 500 1 5000 (by norm_num) (by norm_num)]
    decide
  refine ⟨fun h1 => ?_, fun h1 h2 => ?_, fun h1 h2 => ?_, fun h1 h2 => ?_,
    fun h1 => ?_, hA, hB⟩
  · rw [throughputDisplay, if_pos h1]
  · rw [throughputDisplay, if_neg (not_lt.2 h1), if_pos h2]
  · rw [throughputDisplay, if_neg (not_lt.2 (le_trans (by norm_num) h1)),
      if_neg (not_lt.2 h1), if_pos h2]
  · rw [throughputDisplay, if_neg (not_lt.2 (le_trans (by norm_num) h1)),
      if_neg (not_lt.2 (le_trans (by norm_num) h1)), if_neg (not_lt.2 h1),
      if_pos h2]
  · rw [throughputDisplay, if_neg (not_lt.2 (le_trans (by norm_num) h1)),
      if_neg (not_lt.2 (le_trans (by norm_num) h1)),
      if_neg (not_lt.2 (le_trans (by norm_num) h1)), if_neg (not_lt.2 h1)]

/-- Witness for c10_throughput_format: the two concrete renderings. -/
theorem c10_throughput_format_witness :
    throughputDisplay 1536 = "1.5KiB/s" ∧ throughputDisplay 500 = "500.0B/s" :=
  (c10_throughput_format 0 le_rfl).2.2.2.2.2

/-- C6: inserting an errored record still increments the total count n, the
span over successes is untouched, and objects_per_sec divides the
error-inclusive n by that span — so a failed operation changes the reported
objects/sec. -/
theorem c6_errors_counted_in_objects_per_sec (s : AggregatedOperation)
    (op : Operation) (d : Int) (herr : op.error ≠ "")
    (hspan : numNanoseconds s.duration = some d) (hd : d ≠ 0) :
    (s.insert op).n = s.n + 1 ∧
    (s.insert op).duration = s.duration ∧
    (s.insert op).objects_per_sec =
      some (.val (((s.n + 1 : Int) : ℚ) * 1000000000 / (d : ℚ))) ∧
    s.objects_per_sec = some (.val ((s.n : ℚ) * 1000000000 / (d : ℚ))) ∧
    ((s.n + 1 : Int) : ℚ) * 1000000000 / (d : ℚ) ≠
      (s.n : ℚ) * 1000000000 / (d : ℚ) := by
  have hn : (s.insert op).n = s.n + 1 := by
    simp [AggregatedOperation.insert, herr]
  have hdur : (s.insert op).duration = s.duration := by
    simp [AggregatedOperation.insert, AggregatedOperation.duration, herr]
  have hdq : (d : ℚ) ≠ 0 := Int.cast_ne_zero.2 hd
  refine ⟨hn, hdur, ?_, ?_, ?_⟩
  · simp only [AggregatedOperation.objects_per_sec, hdur, hspan, hn]
    rw [if_neg hd]
  · simp only [AggregatedOperation.objects_per_sec, hspan]
    rw [if_neg hd]
  · intro heq
    rw [div_eq_div_iff hdq hdq] at heq
    have h2 := mul_right_cancel₀ hdq heq
    have h3 := mul_right_cancel₀ (show (1000000000 : ℚ) ≠ 0 by norm_num) h2
    have h4 : (s.n + 1 : Int) = s.n := by exact_mod_cast h3
    omega

/-- Witness for c6_errors_counted_in_objects_per_sec: a fresh Get aggregate
holding one successful 1s record, then an errored record. -/
theorem c6_errors_counted_witness :
    ((seedAggOp.insert ⟨"w1", 0, 1000000000, .Get, 10, "f", ""⟩).insert
        ⟨"w2", 3, 4, .Get, 0, "g", "E"⟩).n =
      (seedAggOp.insert ⟨"w1", 0, 1000000000, .Get, 10, "f", ""⟩).n + 1 :=
  (c6_errors_counted_in_objects_per_sec
    (seedAggOp.insert ⟨"w1", 0, 1000000000, .Get, 10, "f", ""⟩)
    ⟨"w2", 3, 4, .Get, 0, "g", "E"⟩ 1000000000
    (by decide) (by decide) (by decide)).1

/-- C9: when every upload attempt fails, upload_test aborts with
NoObjectsUploaded and no consistency wait, download or delete phase runs. -/
theorem c9_no_objects_uploaded (cfg : RunCfg)
    (h : ∀ i, i < cfg.blob_count → cfg.uploadOutcome i = none) :
    (upload_test cfg).2 = .error .noObjectsUploaded ∧
    (upload_test cfg).1.waitedForConsistency = false ∧
    (upload_test cfg).1.downloadsAttempted = [] ∧
    (upload_test cfg).1.deletesAttempted = [] := by
  have hres : (List.range cfg.blob_count).filterMap
      (fun i => (cfg.uploadOutcome i).map (fun t => (keyFor i, t))) = [] := by
    rw [List.filterMap_eq_nil_iff]
    intro i hi
    rw [List.mem_range] at hi
    rw [h i hi]
    rfl
  simp [upload_test, hres]

/-- Witness for c9_no_objects_uploaded: five uploads, all failing. -/
theorem c9_no_objects_uploaded_witness :
    (upload_test ⟨5, fun _ => none, true, true⟩).2 =
      .error .noObjectsUploaded :=
  (c9_no_objects_uploaded ⟨5, fun _ => none, true, true⟩
    (fun _ _ => rfl)).1

/-! ### C8: bounded concurrency of the Downloader pool -/

theorem poolStep_workers_length {s t : PoolState} (h : PoolStep s t) :
    t.workers.length = s.workers.length := by
  cases h <;> simp [List.length_set]

theorem poolReachable_workers_length {c : Nat} {s : PoolState}
    (h : PoolReachable (initPool c) s) : s.workers.length = c := by
  induction h with
  | refl => simp [initPool]
  | tail _ hstep ih => rw [poolStep_workers_length hstep, ih]

/-- C8: in every state the Downloader pool can reach from its initial state
with worker count c, at most c downloads execute concurrently. -/
theorem c8_bounded_concurrency (c : Nat) (hc : 1 ≤ c) (s : PoolState)
    (h : PoolReachable (initPool c) s) : busyCount s ≤ c := by
  calc busyCount s ≤ s.workers.length := List.length_filter_le _ _
    _ = c := poolReachable_workers_length h

/-- Witness for c8_bounded_concurrency at the initial one-worker pool. -/
theorem c8_bounded_concurrency_witness : busyCount (initPool 1) ≤ 1 :=
  c8_bounded_concurrency 1 le_rfl (initPool 1) Relation.ReflTransGen.refl

/-! ### C5: permutation invariance and the concurrency statistic -/

/-- One step of the per-kind aggregation: what Aggregator::insert does to the
slot of the inserted kind (or_insert the seed, then insert). -/
def insertOptAgg (acc : Option AggregatedOperation) (op : Operation) :
    Option AggregatedOperation :=
  some ((acc.getD seedAggOp).insert op)

theorem aggOp_insert_comm (s : AggregatedOperation) (a b : Operation) :
    (s.insert a).insert b = (s.insert b).insert a := by
  by_cases ha : a.error = "" <;> by_cases hb : b.error = "" <;>
    simp [AggregatedOperation.insert, ha, hb, min_right_comm, sup_right_comm,
      add_right_comm, Finset.Insert.comm]

theorem insertOptAgg_comm (acc : Option AggregatedOperation)
    (a b : Operation) :
    insertOptAgg (insertOptAgg acc a) b = insertOptAgg (insertOptAgg acc b) a := by
  simp [insertOptAgg, aggOp_insert_comm]

theorem foldl_insertOptAgg_perm {l₁ l₂ : List Operation} (p : l₁.Perm l₂) :
    ∀ acc : Option AggregatedOperation,
      l₁.foldl insertOptAgg acc = l₂.foldl insertOptAgg acc := by
  induction p with
  | nil => intro acc; rfl
  | cons x _ ih => intro acc; simp only [List.foldl_cons]; exact ih _
  | swap x y l => intro acc; simp only [List.foldl_cons]
                  rw [insertOptAgg_comm]
  | trans _ _ ih₁ ih₂ => intro acc; rw [ih₁, ih₂]

theorem operations_insert (m : Aggregator) (op : Operation)
    (k : OperationType) :
    (m.insert op).operations k =
      if k = op.op_type then insertOptAgg (m.operations op.op_type) op
      else m.operations k := by
  by_cases hk : k = op.op_type
  · cases hm : m.operations op.op_type <;>
      simp [Aggregator.insert, insertOptAgg, hk, hm]
  · simp [Aggregator.insert, hk]

theorem operations_fold (l : List Operation) :
    ∀ (m : Aggregator) (k : OperationType),
      (l.foldl Aggregator.insert m).operations k =
        (l.filter (fun op => decide (op.op_type = k))).foldl insertOptAgg
          (m.operations k) := by
  induction l with
  | nil => intro m k; rfl
  | cons op l ih =>
    intro m k
    rw [List.foldl_cons, ih]
    by_cases hk : op.op_type = k
    · rw [List.filter_cons_of_pos (by simpa using hk), List.foldl_cons]
      rw [operations_insert, if_pos hk.symm, hk]
    · rw [List.filter_cons_of_neg (by simpa using hk)]
      rw [operations_insert, if_neg (fun h => hk h.symm)]

theorem threadsOf_insert (m : Aggregator) (op : Operation)
    (k : OperationType) :
    threadsOf (m.insert op) k =
      if op.op_type = k ∧ op.error = "" then
        Insert.insert op.id (threadsOf m k)
      else threadsOf m k := by
  by_cases hk : op.op_type = k
  · subst hk
    by_cases herr : op.error = "" <;>
      cases hm : m.operations op.op_type <;>
        simp [threadsOf, operations_insert, insertOptAgg, hm,
          AggregatedOperation.insert, herr, seedAggOp]
  · have hk2 : ¬ (op.op_type = k ∧ op.error = "") := fun h => hk h.1
    rw [if_neg hk2]
    rw [threadsOf, operations_insert, if_neg (fun h => hk (Eq.symm h))]
    rfl

theorem threadsOf_fold (l : List Operation) :
    ∀ (m : Aggregator) (k : OperationType),
      threadsOf (l.foldl Aggregator.insert m) k =
        threadsOf m k ∪
          ((l.filter (fun op => decide (op.op_type = k ∧ op.error = ""))).map
            Operation.id).toFinset := by
  induction l with
  | nil => intro m k; simp
  | cons op l ih =>
    intro m k
    rw [List.foldl_cons, ih, threadsOf_insert]
    by_cases hp : op.op_type = k ∧ op.error = ""
    · rw [if_pos hp, List.filter_cons_of_pos (by simpa using hp),
        List.map_cons, List.toFinset_cons, Finset.insert_union,
        Finset.union_insert]
    · rw [if_neg hp, List.filter_cons_of_neg (by simpa using hp)]

/-- C5: inserting a fixed multiset of records into a fresh Aggregator in any
order yields the same final state, and the concurrency statistic of each
per-kind aggregate equals the number of distinct worker ids among the
successful records of that kind. -/
theorem c5_perm_invariance (l₁ l₂ : List Operation) (hp : l₁.Perm l₂) :
    aggregateAll l₁ = aggregateAll l₂ ∧
    ∀ k s, (aggregateAll l₁).operations k = some s →
      s.concurrency =
        ((((l₁.filter (fun op => decide (op.op_type = k ∧ op.error = ""))).map
          Operation.id).toFinset.card : Nat) : Int) := by
  constructor
  · ext k : 2
    rw [aggregateAll, aggregateAll, operations_fold, operations_fold]
    exact foldl_insertOptAgg_perm (hp.filter _) _
  · intro k s hs
    have h := threadsOf_fold l₁ Aggregator.new k
    have hnew : threadsOf Aggregator.new k = ∅ := rfl
    rw [hnew, Finset.empty_union] at h
    have h2 : threadsOf (aggregateAll l₁) k = s.threads := by
      unfold threadsOf
      rw [show (aggregateAll l₁).operations k = some s from hs]
    rw [aggregateAll] at h2
    rw [AggregatedOperation.concurrency, ← h2, h]

/-! ### C4: the eventual-consistency poller -/

theorem tryKey_budget (f : Nat → Bool) (r : Nat) :
    ∀ idx,
      ((tryKey f r idx).1.filter (fun b => !b)).length +
        (tryKey f r idx).2 ≤ r := by
  induction r with
  | zero => intro idx; simp [tryKey]
  | succ r ih =>
    intro idx
    by_cases hf : f idx
    · simp [tryKey, hf]
    · have h := ih (idx + 1)
      simp only [tryKey, hf, if_false, Bool.false_eq_true] at h ⊢
      simp [List.filter]
      omega

theorem runKeys_budget (o : String → Nat → Bool) (ks : List TxRec) :
    ∀ r, countFailures (runKeys o ks r) ≤ r := by
  induction ks with
  | nil => intro r; simp [runKeys, countFailures]
  | cons t ts ih =>
    intro r
    have h1 := tryKey_budget (o t.key) r 0
    have h2 := ih (tryKey (o t.key) r 0).2
    simp only [runKeys, countFailures, List.map_cons, List.sum_cons] at h2 ⊢
    omega

theorem tryKey_shape (f : Nat → Bool) (r : Nat) :
    ∀ idx, ∃ m, (tryKey f r idx).1 = List.replicate m false ∨
      (tryKey f r idx).1 = List.replicate m false ++ [true] := by
  induction r with
  | zero => intro idx; exact ⟨0, Or.inl rfl⟩
  | succ r ih =>
    intro idx
    by_cases hf : f idx
    · exact ⟨0, Or.inr (by simp [tryKey, hf])⟩
    · obtain ⟨m, hm | hm⟩ := ih (idx + 1)
      · refine ⟨m + 1, Or.inl ?_⟩
        simp [tryKey, hf, hm, List.replicate_succ]
      · refine ⟨m + 1, Or.inr ?_⟩
        simp [tryKey, hf, hm, List.replicate_succ]

theorem runKeys_shape (o : String → Nat → Bool) (ks : List TxRec) :
    ∀ r, ∀ p ∈ runKeys o ks r, ∃ m, p.2 = List.replicate m false ∨
      p.2 = List.replicate m false ++ [true] := by
  induction ks with
  | nil => intro r p hp; simp [runKeys] at hp
  | cons t ts ih =>
    intro r p hp
    simp only [runKeys, List.mem_cons] at hp
    rcases hp with rfl | hp
    · exact tryKey_shape (o t.key) r 0
    · exact ih _ p hp

theorem headD_mem {α : Type} {l : List α} (d : α) (h : l ≠ []) :
    l.headD d ∈ l := by
  cases l with
  | nil => cases h rfl
  | cons a t => simp [List.headD]

theorem getLastD_mem {α : Type} :
    ∀ (l : List α) (d : α), l ≠ [] → l.getLastD d ∈ l := by
  intro l
  induction l with
  | nil => intro d h; cases h rfl
  | cons a t ih =>
    intro d h
    cases t with
    | nil => simp [List.getLastD]
    | cons b u =>
      exact List.mem_cons_of_mem _ (ih a (by simp))

theorem getD_mem {α : Type} {l : List α} {n : Nat} (d : α)
    (h : n < l.length) : l.getD n d ∈ l := by
  rw [List.getD_eq_getElem l d h]
  exact List.getElem_mem h

theorem toTry_length (txs : List TxRec) :
    (toTry txs).length =
      if (notCommittedTxs txs).isEmpty then 1 else 2 := by
  simp only [toTry]
  split <;> rfl

theorem toTry_mem (txs : List TxRec) (hne : txs ≠ []) :
    ∀ t ∈ toTry txs, t ∈ txs := by
  intro t ht
  simp only [toTry] at ht
  by_cases hnc : (notCommittedTxs txs).isEmpty = true
  · rw [if_pos hnc] at ht
    rw [List.mem_singleton] at ht
    subst ht
    exact getLastD_mem txs _ hne
  · rw [if_neg hnc] at ht
    have hncne : notCommittedTxs txs ≠ [] := by
      intro h
      rw [h] at hnc
      exact hnc rfl
    have hsub : ∀ x ∈ notCommittedTxs txs, x ∈ txs :=
      fun x hx => List.mem_of_mem_filter hx
    simp only [List.mem_cons, List.not_mem_nil, or_false] at ht
    rcases ht with rfl | rfl
    · exact hsub _ (headD_mem _ hncne)
    · refine hsub _ (getD_mem _ ?_)
      have hpos : 0 < (notCommittedTxs txs).length :=
        List.length_pos.2 hncne
      exact Nat.div_lt_self hpos (by norm_num)

/-- C4 (amended): the poller samples by receipt status — one key (the last
uploaded) when every receipt committed, else two (the first and middle
non-committed) — always keys that were uploaded; the sampled keys share a
single retry budget R, each failed attempt consuming one unit (followed by
one 2-second sleep), attempts for a key stopping at its first success; and
R is 10 for the Commit broadcast mode and 100 for the weaker Async and Sync
modes. -/
theorem c4_poller_amended (txs : List TxRec) (hne : txs ≠ [])
    (oracle : String → Nat → Bool) (R : Nat) :
    (toTry txs).length =
      (if (notCommittedTxs txs).isEmpty then 1 else 2) ∧
    (∀ t ∈ toTry txs, t ∈ txs) ∧
    countFailures (loop_until_blob_found oracle txs R) ≤ R ∧
    (∀ p ∈ loop_until_blob_found oracle txs R,
      ∃ m, p.2 = List.replicate m false ∨
        p.2 = List.replicate m false ++ [true]) ∧
    wait_retries .Commit = 10 ∧ wait_retries .Async = 100 ∧
    wait_retries .Sync = 100 ∧ retryDelaySecs = 2 :=
  ⟨toTry_length txs, toTry_mem txs hne,
   runKeys_budget oracle (toTry txs) R,
   fun p hp => runKeys_shape oracle (toTry txs) R p hp,
   rfl, rfl, rfl, rfl⟩

/-- Witness for c4_poller_amended: one uncommitted key polled with an
always-failing read against a budget of 3. -/
theorem c4_poller_amended_witness :
    countFailures (loop_until_blob_found (fun _ _ => false)
      [⟨"a", false⟩] 3) ≤ 3 :=
  (c4_poller_amended [⟨"a", false⟩] (by decide) (fun _ _ => false) 3).2.2.1

/-! ### C1: the min/avg/max invariant over successful records -/

/-- Invariant maintained while only successful whole-millisecond records are
inserted: no errors, a positive count, a non-negative total, millisecond
granularity of the extremes, and the total bracketed by count times the
extremes. -/
def InvC1 (s : AggregatedOperation) : Prop :=
  s.errors = 0 ∧ 0 < s.n ∧ 0 ≤ s.total_duration ∧
  (∃ a : Nat, s.min_duration = (a : Int) * 1000000) ∧
  (∃ b : Nat, s.max_duration = (b : Int) * 1000000) ∧
  s.n * s.min_duration ≤ s.total_duration ∧
  s.total_duration ≤ s.n * s.max_duration

theorem insert_success_fields (s : AggregatedOperation) (op : Operation)
    (herr : op.error = "") :
    s.insert op =
      { s with
        n := s.n + 1
        total_bytes := s.total_bytes + op.size
        total_duration := s.total_duration + op.duration
        threads := Insert.insert op.id s.threads
        start_time := min s.start_time op.start
        end_time := max s.end_time op.endT
        min_duration := min s.min_duration op.duration
        max_duration := max s.max_duration op.duration } := by
  simp [AggregatedOperation.insert, herr]

theorem invC1_seed_insert (op : Operation) (herr : op.error = "")
    (hms : ∃ m : Nat, op.duration = (m : Int) * 1000000)
    (hub : op.duration ≤ i64Max) :
    InvC1 (seedAggOp.insert op) := by
  obtain ⟨m, hm⟩ := hms
  have h0 : 0 ≤ op.duration := by
    rw [hm]
    exact mul_nonneg (Int.natCast_nonneg m) (by norm_num)
  have hminEq : min seedAggOp.min_duration op.duration = op.duration :=
    min_eq_right (le_trans hub (by decide))
  have hmaxEq : max seedAggOp.max_duration op.duration = op.duration :=
    max_eq_right (le_trans (by decide) h0)
  rw [InvC1, insert_success_fields _ _ herr]
  refine ⟨rfl, ?_, ?_, ?_, ?_, ?_, ?_⟩
  · show 0 < seedAggOp.n + 1
    decide
  · show 0 ≤ seedAggOp.total_duration + op.duration
    simpa [seedAggOp] using h0
  · show ∃ a : Nat, min seedAggOp.min_duration op.duration = (a : Int) * 1000000
    exact ⟨m, by rw [hminEq, hm]⟩
  · show ∃ b : Nat, max seedAggOp.max_duration op.duration = (b : Int) * 1000000
    exact ⟨m, by rw [hmaxEq, hm]⟩
  · show (seedAggOp.n + 1) * min seedAggOp.min_duration op.duration ≤
      seedAggOp.total_duration + op.duration
    rw [hminEq]
    simp [seedAggOp]
  · show seedAggOp.total_duration + op.duration ≤
      (seedAggOp.n + 1) * max seedAggOp.max_duration op.duration
    rw [hmaxEq]
    simp [seedAggOp]

theorem invC1_insert (s : AggregatedOperation) (op : Operation)
    (hInv : InvC1 s) (herr : op.error = "")
    (hms : ∃ m : Nat, op.duration = (m : Int) * 1000000) :
    InvC1 (s.insert op) := by
  obtain ⟨he, hn, ht0, ⟨a, ha⟩, ⟨b, hb⟩, hlow, hhigh⟩ := hInv
  obtain ⟨m, hm⟩ := hms
  have h0 : 0 ≤ op.duration := by
    rw [hm]
    exact mul_nonneg (Int.natCast_nonneg m) (by norm_num)
  have hn0 : (0 : Int) ≤ s.n := le_of_lt hn
  rw [InvC1, insert_success_fields _ _ herr]
  refine ⟨he, ?_, ?_, ?_, ?_, ?_, ?_⟩
  · show 0 < s.n + 1
    omega
  · show 0 ≤ s.total_duration + op.duration
    omega
  · show ∃ c : Nat, min s.min_duration op.duration = (c : Int) * 1000000
    rcases le_total s.min_duration op.duration with hcase | hcase
    · exact ⟨a, by rw [min_eq_left hcase, ha]⟩
    · exact ⟨m, by rw [min_eq_right hcase, hm]⟩
  · show ∃ c : Nat, max s.max_duration op.duration = (c : Int) * 1000000
    rcases le_total s.max_duration op.duration with hcase | hcase
    · exact ⟨m, by rw [max_eq_right hcase, hm]⟩
    · exact ⟨b, by rw [max_eq_left hcase, hb]⟩
  · show (s.n + 1) * min s.min_duration op.duration ≤
      s.total_duration + op.duration
    have h1 : min s.min_duration op.duration ≤ s.min_duration :=
      min_le_left _ _
    have h2 : min s.min_duration op.duration ≤ op.duration :=
      min_le_right _ _
    have h3 : s.n * min s.min_duration op.duration ≤ s.n * s.min_duration :=
      mul_le_mul_of_nonneg_left h1 hn0
    nlinarith
  · show s.total_duration + op.duration ≤
      (s.n + 1) * max s.max_duration op.duration
    have h1 : s.max_duration ≤ max s.max_duration op.duration :=
      le_max_left _ _
    have h2 : op.duration ≤ max s.max_duration op.duration :=
      le_max_right _ _
    have h3 : s.n * s.max_duration ≤ s.n * max s.max_duration op.duration :=
      mul_le_mul_of_nonneg_left h1 hn0
    nlinarith

theorem invC1_fold (l : List Operation) :
    ∀ s : AggregatedOperation, InvC1 s →
      (∀ op ∈ l, op.error = "" ∧
        ∃ m : Nat, op.duration = (m : Int) * 1000000) →
      InvC1 (l.foldl AggregatedOperation.insert s) := by
  induction l with
  | nil => intro s hs _; exact hs
  | cons op l ih =>
    intro s hs hall
    rw [List.foldl_cons]
    exact ih _ (invC1_insert s op hs (hall op (List.mem_cons_self _ _)).1
        (hall op (List.mem_cons_self _ _)).2)
      (fun x hx => hall x (List.mem_cons_of_mem _ hx))

theorem total_duration_fold (l : List Operation) :
    ∀ s : AggregatedOperation, (∀ op ∈ l, op.error = "") →
      (l.foldl AggregatedOperation.insert s).total_duration =
        s.total_duration + (l.map Operation.duration).sum := by
  induction l with
  | nil => intro s _; simp
  | cons op l ih =>
    intro s hall
    rw [List.foldl_cons, ih _ (fun x hx => hall x (List.mem_cons_of_mem _ hx))]
    have herr : op.error = "" := hall op (List.mem_cons_self _ _)
    simp [AggregatedOperation.insert, herr]
    ring

theorem avg_duration_in_range (s : AggregatedOperation) (hInv : InvC1 s)
    (hle : s.total_duration ≤ i64Max) :
    s.avg_duration ≠ none ∧
    s.min_duration ≤ s.avg_duration.getD 0 ∧
    s.avg_duration.getD 0 ≤ s.max_duration := by
  obtain ⟨he, hn, ht0, ⟨a, ha⟩, ⟨b, hb⟩, hlow, hhigh⟩ := hInv
  have hnum : numNanoseconds s.total_duration = some s.total_duration := by
    unfold numNanoseconds
    rw [if_pos ⟨le_trans (by decide) ht0, hle⟩]
  have hnz : ¬ s.n = 0 := by omega
  have hpos : (0 : ℚ) < (s.n : ℚ) * 1000000000 := by
    have : (0 : ℚ) < (s.n : ℚ) := by exact_mod_cast hn
    positivity
  set q : ℚ := (s.total_duration : ℚ) / ((s.n : ℚ) * 1000000000) * 1000
    with hq
  have hqA : (a : ℚ) ≤ q := by
    rw [hq, div_mul_eq_mul_div, le_div_iff hpos]
    have hcast : ((s.n * ((a : Int) * 1000000) : Int) : ℚ) ≤
        ((s.total_duration : Int) : ℚ) := by
      exact_mod_cast (ha ▸ hlow)
    push_cast at hcast ⊢
    nlinarith
  have hqB : q ≤ (b : ℚ) := by
    rw [hq, div_mul_eq_mul_div, div_le_iff hpos]
    have hcast : ((s.total_duration : Int) : ℚ) ≤
        ((s.n * ((b : Int) * 1000000) : Int) : ℚ) := by
      exact_mod_cast (hb ▸ hhigh)
    push_cast at hcast ⊢
    nlinarith
  have hq0 : (0 : ℚ) ≤ q := le_trans (by positivity) hqA
  have hround : roundHalfAway q = ⌊q + 1 / 2⌋ := by
    unfold roundHalfAway
    rw [if_pos hq0]
  have hrA : (a : Int) ≤ roundHalfAway q := by
    rw [hround]
    apply Int.le_floor.2
    push_cast
    linarith
  have hrB : roundHalfAway q ≤ (b : Int) := by
    rw [hround]
    have : ⌊q + 1 / 2⌋ < (b : Int) + 1 := by
      apply Int.floor_lt.2
      push_cast
      linarith
    omega
  have havg : s.avg_duration = some (roundHalfAway q * 1000000) := by
    simp only [AggregatedOperation.avg_duration, hnum]
    rw [if_neg hnz]
  refine ⟨by rw [havg]; exact Option.some_ne_none _, ?_, ?_⟩
  · rw [havg, Option.getD_some, ha]
    exact mul_le_mul_of_nonneg_right hrA (by norm_num)
  · rw [havg, Option.getD_some, hb]
    exact mul_le_mul_of_nonneg_right hrB (by norm_num)

/-- C1 (amended): for at least one successful record, all successful, each of
whole-millisecond non-negative duration, with a total fitting an i64
nanosecond count, the aggregate built from a fresh seed has at least one
counted success and its avg_duration lies within [min_duration,
max_duration].  (With errored records mixed in the claim fails: see the
counterexample.) -/
theorem c1_success_avg_in_bounds (l : List Operation) (hne : l ≠ [])
    (hgood : ∀ op ∈ l, op.error = "" ∧
      ∃ m : Nat, op.duration = (m : Int) * 1000000)
    (hsum : (l.map Operation.duration).sum ≤ i64Max) :
    0 < (l.foldl AggregatedOperation.insert seedAggOp).n -
        (l.foldl AggregatedOperation.insert seedAggOp).errors ∧
    (l.foldl AggregatedOperation.insert seedAggOp).avg_duration ≠ none ∧
    (l.foldl AggregatedOperation.insert seedAggOp).min_duration ≤
      ((l.foldl AggregatedOperation.insert seedAggOp).avg_duration).getD 0 ∧
    ((l.foldl AggregatedOperation.insert seedAggOp).avg_duration).getD 0 ≤
      (l.foldl AggregatedOperation.insert seedAggOp).max_duration := by
  have hdnn : ∀ op ∈ l, 0 ≤ op.duration := by
    intro op hop
    obtain ⟨-, m, hm⟩ := hgood op hop
    rw [hm]; positivity
  obtain ⟨op, rest, rfl⟩ := List.exists_cons_of_ne_nil hne
  have hhead := hgood op (List.mem_cons_self _ _)
  have hople : op.duration ≤ i64Max := by
    refine le_trans ?_ hsum
    apply List.single_le_sum
    · intro x hx
      rw [List.mem_map] at hx
      obtain ⟨y, hy, rfl⟩ := hx
      exact hdnn y hy
    · exact List.mem_map_of_mem _ (List.mem_cons_self _ _)
  have hinv1 : InvC1 (seedAggOp.insert op) :=
    invC1_seed_insert op hhead.1 hhead.2 hople
  have hinv : InvC1 ((op :: rest).foldl AggregatedOperation.insert seedAggOp) := by
    rw [List.foldl_cons]
    exact invC1_fold rest _ hinv1
      (fun x hx => hgood x (List.mem_cons_of_mem _ hx))
  have htot : ((op :: rest).foldl AggregatedOperation.insert
      seedAggOp).total_duration = ((op :: rest).map Operation.duration).sum := by
    rw [total_duration_fold _ _ (fun x hx => (hgood x hx).1)]
    simp [seedAggOp]
  have hrange := avg_duration_in_range _ hinv (htot ▸ hsum)
  obtain ⟨he, hn, -⟩ := hinv
  exact ⟨by omega, hrange⟩

/-- Witness for c1_success_avg_in_bounds: a single 1ms Get record. -/
theorem c1_success_avg_in_bounds_witness :
    ([⟨"w", 0, 1000000, .Get, 5, "f", ""⟩].foldl AggregatedOperation.insert
      seedAggOp).min_duration ≤
    (([⟨"w", 0, 1000000, .Get, 5, "f", ""⟩].foldl AggregatedOperation.insert
      seedAggOp).avg_duration).getD 0 :=
  (c1_success_avg_in_bounds [⟨"w", 0, 1000000, .Get, 5, "f", ""⟩]
    (by decide)
    (by
      intro op hop
      rw [List.mem_singleton] at hop
      subst hop
      exact ⟨rfl, 1, by decide⟩)
    (by decide)).2.2.1

/-- Witness for c5_perm_invariance: two Get records in either order. -/
theorem c5_perm_invariance_witness :
    aggregateAll [⟨"w1", 0, 1, .Get, 1, "f", ""⟩,
                  ⟨"w2", 0, 2, .Get, 2, "g", ""⟩] =
    aggregateAll [⟨"w2", 0, 2, .Get, 2, "g", ""⟩,
                  ⟨"w1", 0, 1, .Get, 1, "f", ""⟩] :=
  (c5_perm_invariance _ _
    (List.Perm.swap ⟨"w2", 0, 2, .Get, 2, "g", ""⟩
      ⟨"w1", 0, 1, .Get, 1, "f", ""⟩ [])).1

end RecallLoader
